import Mathlib

/-!
Formal model of the Asterisk interpreter core (src/evaluation.py and the
module loader in src/asterisk.py).

The evaluator (`class Tree(Interpreter)` in evaluation.py) is embedded as a
fuel-indexed big-step interpreter over an AST whose constructors mirror the
grammar node kinds the visitor methods handle.  Python machine state
(`self.env`, `self.local_scopes`, `self.loop_depth`, `self.function_depth`)
is threaded explicitly through `EvalState`.  The Python exceptions
`LoopBreak`, `LoopContinue`, `FunctionReturn` and the runtime error classes
are modelled as non-`val` evaluation results (`ERes`).  Python dictionaries
are modelled as association lists preserving insertion order; mutable
containers are modelled by value, with in-place mutation rendered as a
write-back to the binding site that `_lookup_user_var` found.

The module loader (`make_module_loader` in asterisk.py) is embedded with an
explicit heap of dictionary objects so that the Python object identity of
the cached export mapping (and the caller's ability to mutate it in place)
is captured faithfully.
-/

namespace Asterisk

/-- Runtime error kinds: the Python exception classes raised by
`evaluation.py` (`NameError`, `TypeError`, `IndexError`, `KeyError`,
`ZeroDivisionError`, and the plain `RuntimeError` used for
break/continue/return outside their context). -/
inductive Err where
  | nameError (msg : String)
  | typeError (msg : String)
  | indexError (msg : String)
  | keyError (msg : String)
  | zeroDivisionError (msg : String)
  | runtimeError (msg : String)
deriving DecidableEq

mutual
/-- Runtime values of the interpreter: the Python values produced by the
visitor methods.  `vnone` is Python `None`; `vclosure` is the
`user_function` created by `func_def` (parameter list + body node, no
captured environment); `vhost` is one of the injected host builtins.
Python floats are modelled as rationals (every float arising in the claims
is exactly representable). -/
inductive Value where
  | vnone
  | vint (n : Int)
  | vfloat (q : ℚ)
  | vbool (b : Bool)
  | vstr (s : String)
  | vlist (xs : List Value)
  | vtuple (xs : List Value)
  | vdict (items : List (Value × Value))
  | vclosure (fname : String) (params : List String) (body : Node)
  | vhost (hname : String)

/-- Parse-tree nodes: one constructor per grammar node kind handled by the
visitor methods of `class Tree` that the claims exercise.  Number literals
are carried pre-split by the lexeme rule of `number` (a literal is a float
iff its lexeme contains `.`, `e` or `E`); string literals carry their
decoded text (escape decoding by `ast.literal_eval` happens at the token). -/
inductive Node where
  | start (stmts : List Node)
  | block (stmts : List Node)
  | numI (n : Int)
  | numF (q : ℚ)
  | strLit (s : String)
  | trueLit
  | falseLit
  | var (name : String)
  | assign_var (name : String) (e : Node)
  | assign_index (name : String) (idx : Node) (e : Node)
  | func_def (name : String) (params : List String) (body : Node)
  | while_stmt (cond : Node) (body : Node)
  | for_stmt (name : String) (iterE : Node) (body : Node)
  | break_stmt
  | continue_stmt
  | return_stmt (e : Option Node)
  | add (a b : Node)
  | lt (a b : Node)
  | and_op (a b : Node)
  | or_op (a b : Node)
  | div (a b : Node)
  | var_index (name : String) (idx : Node)
  | list_literal (elems : List Node)
  | func_call (fname : String) (args : List Node)
end

/-- Association-list lookup, modelling Python `d[k]` / `k in d` on a dict
with string-like keys. -/
def alookup {κ α : Type} [DecidableEq κ] (k : κ) : List (κ × α) → Option α
  | [] => none
  | (k', v) :: rest => if k' = k then some v else alookup k rest

/-- Association-list update, modelling Python `d[k] = v`: an existing key
keeps its position, a new key is appended (dict insertion order). -/
def aset {κ α : Type} [DecidableEq κ] (k : κ) (v : α) : List (κ × α) → List (κ × α)
  | [] => [(k, v)]
  | (k', v') :: rest => if k' = k then (k, v) :: rest else (k', v') :: aset k v rest

/-- Association-list removal, modelling Python `d.pop(k, None)` (a dict
has unique keys, so dropping every entry with the key is the same as
dropping the one entry). -/
def aremove {κ α : Type} [DecidableEq κ] (k : κ) : List (κ × α) → List (κ × α)
  | [] => []
  | (k', v') :: rest => if k' = k then aremove k rest else (k', v') :: aremove k rest

/-- A scope: one of the dictionaries making up the environment chain. -/
abbrev Scope := List (String × Value)

/-- The mutable state of a `Tree` evaluator instance: `self.env`,
`self.local_scopes` (innermost scope at the HEAD here; the source appends
at the end and searches with `reversed`), `self.loop_depth`,
`self.function_depth`.  (`self.current_dir` and `self.module_loader` only
matter for `import_stmt`, which the evaluator claims do not exercise.) -/
structure EvalState where
  env : Scope
  local_scopes : List Scope
  loop_depth : Nat
  function_depth : Nat

/-- The `self.builtins` mapping: the injected host functions. -/
def builtins : Scope :=
  [("putln", .vhost "putln"), ("scan", .vhost "scan"), ("length", .vhost "length")]

/-- Search the local scopes, innermost first (`for scope in
reversed(self.local_scopes)`). -/
def lookupLocals (name : String) : List Scope → Option Value
  | [] => none
  | sc :: rest =>
    match alookup name sc with
    | some v => some v
    | none => lookupLocals name rest

/-- `Tree._lookup_var`: locals → module env → builtins. -/
def lookup_var (st : EvalState) (name : String) : Option Value :=
  match lookupLocals name st.local_scopes with
  | some v => some v
  | none =>
    match alookup name st.env with
    | some v => some v
    | none => alookup name builtins

/-- `Tree._lookup_user_var`: locals → module env, builtins excluded. -/
def lookup_user_var (st : EvalState) (name : String) : Option Value :=
  match lookupLocals name st.local_scopes with
  | some v => some v
  | none => alookup name st.env

/-- `Tree._set_var`: write to the innermost local scope if any, else to the
module environment. -/
def set_var (st : EvalState) (name : String) (v : Value) : EvalState :=
  match st.local_scopes with
  | [] => { st with env := aset name v st.env }
  | sc :: rest => { st with local_scopes := aset name v sc :: rest }

/-- `Tree._current_scope`: the innermost local scope if any, else the
module environment. -/
def current_scope (st : EvalState) : Scope :=
  match st.local_scopes with
  | [] => st.env
  | sc :: _ => sc

/-- Replace the dictionary `_current_scope` denotes (used to model in-place
mutation of that dictionary, as in `for_stmt`). -/
def set_current (st : EvalState) (sc : Scope) : EvalState :=
  match st.local_scopes with
  | [] => { st with env := sc }
  | _ :: rest => { st with local_scopes := sc :: rest }

/-- Write back an updated value to the binding site `_lookup_user_var`
found: the innermost local scope containing the name. -/
def setInLocals (name : String) (v : Value) : List Scope → Option (List Scope)
  | [] => none
  | sc :: rest =>
    if (alookup name sc).isSome then some (aset name v sc :: rest)
    else
      match setInLocals name v rest with
      | some rest' => some (sc :: rest')
      | none => none

/-- Write back an updated container to wherever `_lookup_user_var` found it
(locals innermost-first, else module env).  In the source the container is
a heap object mutated in place; containers are modelled by value here, so
the mutation becomes a rebinding at the site the lookup found. -/
def set_user_var (st : EvalState) (name : String) (v : Value) : Option EvalState :=
  match setInLocals name v st.local_scopes with
  | some ls => some { st with local_scopes := ls }
  | none =>
    if (alookup name st.env).isSome then some { st with env := aset name v st.env }
    else none

/-- Python truthiness, as used by `if`, `while`, `and`, `or`. -/
def truthy : Value → Bool
  | .vnone => false
  | .vint n => n != 0
  | .vfloat q => q != 0
  | .vbool b => b
  | .vstr s => s != ""
  | .vlist xs => !xs.isEmpty
  | .vtuple xs => !xs.isEmpty
  | .vdict items => !items.isEmpty
  | .vclosure _ _ _ => true
  | .vhost _ => true

/-- The numeric reading of a value (Python numbers; `bool` is a subclass of
`int`, so `True` reads as 1 and `False` as 0). -/
def toNum : Value → Option ℚ
  | .vint n => some (n : ℚ)
  | .vfloat q => some q
  | .vbool b => some (if b then 1 else 0)
  | _ => none

/-- `isinstance(index, int)` together with the int value: Python `bool` is
a subclass of `int`, so booleans pass the check (`True` ↦ 1, `False` ↦ 0);
floats and everything else fail it. -/
def toIndexInt : Value → Option Int
  | .vint n => some n
  | .vbool b => some (if b then 1 else 0)
  | _ => none

/-- Evaluation result of a node: a produced value, one of the three non-local
control-flow exceptions (`LoopBreak`, `LoopContinue`, `FunctionReturn`), a
runtime error, or fuel exhaustion (a modelling artifact: Python recursion
has no fuel). -/
inductive ERes where
  | val (v : Value)
  | brk
  | cont
  | ret (v : Value)
  | err (e : Err)
  | nofuel

/-- The `add` visitor's value operation: Python `+`.  `int + int` stays an
integer (with `bool` reading as 0/1, since `bool` subclasses `int`); any
float operand yields a float; strings, lists, tuples concatenate; anything
else is a `TypeError`. -/
def pyAdd : Value → Value → ERes
  | .vint a, .vint b => .val (.vint (a + b))
  | .vint a, .vbool b => .val (.vint (a + (if b then 1 else 0)))
  | .vbool a, .vint b => .val (.vint ((if a then 1 else 0) + b))
  | .vbool a, .vbool b => .val (.vint ((if a then 1 else 0) + (if b then 1 else 0)))
  | .vfloat a, y =>
    match toNum y with
    | some q => .val (.vfloat (a + q))
    | none => .err (.typeError "unsupported operand type(s) for +")
  | x, .vfloat b =>
    match toNum x with
    | some q => .val (.vfloat (q + b))
    | none => .err (.typeError "unsupported operand type(s) for +")
  | .vstr a, .vstr b => .val (.vstr (a ++ b))
  | .vlist a, .vlist b => .val (.vlist (a ++ b))
  | .vtuple a, .vtuple b => .val (.vtuple (a ++ b))
  | _, _ => .err (.typeError "unsupported operand type(s) for +")

/-- The `lt` visitor's value operation: Python `<` on numbers (by numeric
value) and strings (lexicographic); other operand combinations are a
`TypeError` (modelled for the operand kinds the claims exercise). -/
def pyLt (x y : Value) : ERes :=
  match toNum x, toNum y with
  | some a, some b => .val (.vbool (decide (a < b)))
  | _, _ =>
    match x, y with
    | .vstr a, .vstr b => .val (.vbool (decide (a < b)))
    | _, _ => .err (.typeError "'<' not supported between operands")

/-- The zero test `y == 0` guarding `div`: Python `==` against `0` is a
numeric comparison, true for `0`, `0.0` and `False`, and false for every
non-numeric value. -/
def pyEqZero (y : Value) : Bool :=
  match toNum y with
  | some q => q == 0
  | none => false

/-- The `div` visitor's value operation, after both operands are evaluated:
`if y == 0: raise ZeroDivisionError(...)`, otherwise Python true division
`x / y`, which on numbers always yields a float. -/
def divStep (x y : Value) : ERes :=
  if pyEqZero y then .err (.zeroDivisionError "division by zero")
  else
    match toNum x, toNum y with
    | some a, some b => .val (.vfloat (a / b))
    | _, _ => .err (.typeError "unsupported operand type(s) for /")

/-- Python list read `target[index]` for an `int` index: a negative index
counts from the end; out of range is an `IndexError`. -/
def pyListGet (xs : List Value) (n : Int) : Option Value :=
  let i : Int := if n < 0 then n + xs.length else n
  if 0 ≤ i ∧ i < xs.length then xs.get? i.toNat else none

/-- Python list write `target[index] = value` for an `int` index: a
negative index counts from the end; out of range is an `IndexError`. -/
def pyListSet (xs : List Value) (n : Int) (v : Value) : Option (List Value) :=
  let i : Int := if n < 0 then n + xs.length else n
  if 0 ≤ i ∧ i < xs.length then some (xs.set i.toNat v) else none

/-- The list branch of `var_index`: `isinstance(index, int)` check (which
booleans pass, since `bool` subclasses `int`), then `target[index]`. -/
def listReadStep (xs : List Value) (idx : Value) : ERes :=
  match toIndexInt idx with
  | none => .err (.typeError "list index must be int")
  | some n =>
    match pyListGet xs n with
    | some v => .val v
    | none => .err (.indexError "list index out of range")

/-- The tuple branch of `var_index`. -/
def tupleReadStep (xs : List Value) (idx : Value) : ERes :=
  match toIndexInt idx with
  | none => .err (.typeError "tuple index must be int")
  | some n =>
    match pyListGet xs n with
    | some v => .val v
    | none => .err (.indexError "tuple index out of range")

/-- The list branch of `assign_index`: `isinstance(index, int)` check, then
`target[index] = value`. -/
def listWriteStep (xs : List Value) (idx : Value) (v : Value) : Except Err (List Value) :=
  match toIndexInt idx with
  | none => .error (.typeError "list index must be int")
  | some n =>
    match pyListSet xs n v with
    | some xs' => .ok xs'
    | none => .error (.indexError "list assignment index out of range")

/-- Python hashability of a value used as a dict key: lists and dicts are
unhashable.  (Tuples containing unhashable elements are not modelled; no
claim exercises them.) -/
def hashable : Value → Bool
  | .vlist _ => false
  | .vdict _ => false
  | _ => true

/-- Python `==` between dict keys: numbers (including booleans) compare by
numeric value, strings by text, `None` to `None`.  (Structural equality of
tuple keys is not modelled; no claim exercises it.) -/
def keyEq (a b : Value) : Bool :=
  match toNum a, toNum b with
  | some x, some y => x == y
  | _, _ =>
    match a, b with
    | .vstr s, .vstr t => s == t
    | .vnone, .vnone => true
    | _, _ => false

/-- Dict lookup with Python key equality. -/
def dlookup (k : Value) : List (Value × Value) → Option Value
  | [] => none
  | (k', v) :: rest => if keyEq k' k then some v else dlookup k rest

/-- Dict update with Python key equality: an existing key keeps its
position, a new key is appended. -/
def dset (k : Value) (v : Value) : List (Value × Value) → List (Value × Value)
  | [] => [(k, v)]
  | (k', v') :: rest => if keyEq k' k then (k, v) :: rest else (k', v') :: dset k v rest

/-- `iter(iterable)` in `for_stmt`: lists and tuples yield their elements,
strings their characters (as one-character strings), dicts their keys;
anything else raises `TypeError`. -/
def pyIter : Value → Option (List Value)
  | .vlist xs => some xs
  | .vtuple xs => some xs
  | .vstr s => some (s.toList.map (fun c => .vstr (String.singleton c)))
  | .vdict items => some (items.map (fun kv => kv.1))
  | _ => none

/-- `len(x)` for the `length` builtin. -/
def pyLen : Value → Option Nat
  | .vstr s => some s.length
  | .vlist xs => some xs.length
  | .vtuple xs => some xs.length
  | .vdict items => some items.length
  | _ => none

/-- Calling one of the injected host builtins.  `putln` prints and returns
`None`, `scan` reads a line and returns it — host I/O is outside the core
(spec §1), so both are modelled as returning `None`; `length` is `len`. -/
def callHost (h : String) (args : List Value) : ERes :=
  if h = "length" then
    match args with
    | [x] =>
      match pyLen x with
      | some n => .val (.vint n)
      | none => .err (.typeError "object has no length")
    | _ => .err (.typeError "length() takes 1 argument")
  else if h = "putln" then .val .vnone
  else if h = "scan" then
    match args with
    | [_] => .val .vnone
    | _ => .err (.typeError "scan() takes 1 argument")
  else .err (.typeError (h ++ " is not callable"))

/-- The `finally` of `for_stmt`: restore the prior binding of the loop
variable in the current scope, or remove it if there was none. -/
def restore_binding (st : EvalState) (name : String) (old : Option Value) : EvalState :=
  match old with
  | some v => set_current st (aset name v (current_scope st))
  | none => set_current st (aremove name (current_scope st))

mutual
/-- The evaluator: `Tree.visit` dispatching on the node kind, one branch
per visitor method.  Fuel decreases on every recursive call (Python
recursion is unbounded; fuel exhaustion surfaces as `ERes.nofuel`). -/
def evalNode : Nat → EvalState → Node → ERes × EvalState
  | 0, st, _ => (.nofuel, st)
  | f + 1, st, nd =>
    match nd with
    | .start stmts => evalSeq f st stmts .vnone
    | .block stmts => evalSeq f st stmts .vnone
    | .numI n => (.val (.vint n), st)
    | .numF q => (.val (.vfloat q), st)
    | .strLit s => (.val (.vstr s), st)
    | .trueLit => (.val (.vbool true), st)
    | .falseLit => (.val (.vbool false), st)
    | .var name =>
      match lookup_var st name with
      | some v => (.val v, st)
      | none => (.err (.nameError ("undefined variable: " ++ name)), st)
    | .assign_var name e =>
      match evalNode f st e with
      | (.val v, st1) => (.val v, set_var st1 name v)
      | other => other
    | .assign_index name idxE e =>
      match evalNode f st idxE with
      | (.val idx, st1) =>
        match evalNode f st1 e with
        | (.val v, st2) =>
          match lookup_user_var st2 name with
          | none => (.err (.nameError ("undefined variable: " ++ name)), st2)
          | some (.vlist xs) =>
            match listWriteStep xs idx v with
            | .error e2 => (.err e2, st2)
            | .ok xs' =>
              match set_user_var st2 name (.vlist xs') with
              | some st3 => (.val v, st3)
              | none => (.err (.nameError ("undefined variable: " ++ name)), st2)
          | some (.vdict items) =>
            if hashable idx then
              match set_user_var st2 name (.vdict (dset idx v items)) with
              | some st3 => (.val v, st3)
              | none => (.err (.nameError ("undefined variable: " ++ name)), st2)
            else (.err (.typeError "dict key is not hashable"), st2)
          | some _ => (.err (.typeError (name ++ " is not indexable")), st2)
        | other => other
      | other => other
    | .func_def name params body =>
      let fnv := Value.vclosure name params body
      (.val fnv, set_var st name fnv)
    | .while_stmt cond body =>
      match whileLoop f { st with loop_depth := st.loop_depth + 1 } cond body .vnone with
      | (res, st2) => (res, { st2 with loop_depth := st2.loop_depth - 1 })
    | .for_stmt name iterE body =>
      match evalNode f st iterE with
      | (.val itv, st1) =>
        match pyIter itv with
        | none => (.err (.typeError "for target is not iterable"), st1)
        | some items =>
          match forLoop f { st1 with loop_depth := st1.loop_depth + 1 } name items body .vnone with
          | (res, st3) =>
            (res, restore_binding { st3 with loop_depth := st3.loop_depth - 1 } name
              (alookup name (current_scope st1)))
      | other => other
    | .break_stmt =>
      if st.loop_depth = 0 then (.err (.runtimeError "break used outside of loop"), st)
      else (.brk, st)
    | .continue_stmt =>
      if st.loop_depth = 0 then (.err (.runtimeError "continue used outside of loop"), st)
      else (.cont, st)
    | .return_stmt e =>
      if st.function_depth = 0 then (.err (.runtimeError "return used outside of function"), st)
      else
        match e with
        | none => (.ret .vnone, st)
        | some ex =>
          match evalNode f st ex with
          | (.val v, st1) => (.ret v, st1)
          | other => other
    | .add a b =>
      match evalNode f st a with
      | (.val x, st1) =>
        match evalNode f st1 b with
        | (.val y, st2) => (pyAdd x y, st2)
        | other => other
      | other => other
    | .lt a b =>
      match evalNode f st a with
      | (.val x, st1) =>
        match evalNode f st1 b with
        | (.val y, st2) => (pyLt x y, st2)
        | other => other
      | other => other
    | .and_op a b =>
      match evalNode f st a with
      | (.val l, st1) =>
        if truthy l then
          match evalNode f st1 b with
          | (.val r, st2) => (.val (.vbool (truthy r)), st2)
          | other => other
        else (.val (.vbool false), st1)
      | other => other
    | .or_op a b =>
      match evalNode f st a with
      | (.val l, st1) =>
        if truthy l then (.val (.vbool true), st1)
        else
          match evalNode f st1 b with
          | (.val r, st2) => (.val (.vbool (truthy r)), st2)
          | other => other
      | other => other
    | .div a b =>
      match evalNode f st a with
      | (.val x, st1) =>
        match evalNode f st1 b with
        | (.val y, st2) => (divStep x y, st2)
        | other => other
      | other => other
    | .var_index name idxE =>
      match evalNode f st idxE with
      | (.val idx, st1) =>
        match lookup_user_var st1 name with
        | none => (.err (.nameError ("undefined variable: " ++ name)), st1)
        | some (.vlist xs) => (listReadStep xs idx, st1)
        | some (.vtuple xs) => (tupleReadStep xs idx, st1)
        | some (.vdict items) =>
          if hashable idx then
            match dlookup idx items with
            | some v => (.val v, st1)
            | none => (.err (.keyError "dict key not found"), st1)
          else (.err (.typeError "dict key is not hashable"), st1)
        | some _ => (.err (.typeError (name ++ " is not indexable")), st1)
      | other => other
    | .list_literal elems =>
      match evalArgs f st elems with
      | (.ok vs, st1) => (.val (.vlist vs), st1)
      | (.error other, st1) => (other, st1)
    | .func_call fname argNodes =>
      match evalArgs f st argNodes with
      | (.error other, st1) => (other, st1)
      | (.ok args, st1) =>
        match lookup_var st1 fname with
        | none => (.err (.nameError ("undefined function: " ++ fname)), st1)
        | some (.vclosure fn ps body) => callFunc f st1 fn ps body args
        | some (.vhost h) => (callHost h args, st1)
        | some _ => (.err (.typeError (fname ++ " is not callable")), st1)

/-- `start` / `block`: evaluate children in order, result is the last
child's value (`last = None` initially). -/
def evalSeq : Nat → EvalState → List Node → Value → ERes × EvalState
  | 0, st, _, _ => (.nofuel, st)
  | _ + 1, st, [], last => (.val last, st)
  | f + 1, st, nd :: rest, _ =>
    match evalNode f st nd with
    | (.val v, st1) => evalSeq f st1 rest v
    | other => other

/-- `args` / the elements of `list_literal`: evaluate children
left-to-right, collecting the values; any non-value outcome propagates. -/
def evalArgs : Nat → EvalState → List Node → Except ERes (List Value) × EvalState
  | 0, st, _ => ((.error .nofuel), st)
  | _ + 1, st, [] => (.ok [], st)
  | f + 1, st, nd :: rest =>
    match evalNode f st nd with
    | (.val v, st1) =>
      match evalArgs f st1 rest with
      | (.ok vs, st2) => (.ok (v :: vs), st2)
      | other => other
    | (other, st1) => (.error other, st1)

/-- The loop of `while_stmt` (the `loop_depth` increment/decrement sits in
the `while_stmt` branch of `evalNode`, mirroring the `try`/`finally`):
while the guard is truthy evaluate the body; `LoopContinue` skips to the
next iteration, `LoopBreak` exits; the result is the last completed body
value (`None` if the body never completed). -/
def whileLoop : Nat → EvalState → Node → Node → Value → ERes × EvalState
  | 0, st, _, _, _ => (.nofuel, st)
  | f + 1, st, cond, body, last =>
    match evalNode f st cond with
    | (.val c, st1) =>
      if truthy c then
        match evalNode f st1 body with
        | (.val v, st2) => whileLoop f st2 cond body v
        | (.cont, st2) => whileLoop f st2 cond body last
        | (.brk, st2) => (.val last, st2)
        | other => other
      else (.val last, st1)
    | other => other

/-- The iteration of `for_stmt` over the materialised iterator: bind the
loop variable in the current scope (`scope[loop_var] = item`), evaluate
the body, handle `LoopContinue`/`LoopBreak`. -/
def forLoop : Nat → EvalState → String → List Value → Node → Value → ERes × EvalState
  | 0, st, _, _, _, _ => (.nofuel, st)
  | _ + 1, st, _, [], _, last => (.val last, st)
  | f + 1, st, name, item :: rest, body, last =>
    match evalNode f (set_current st (aset name item (current_scope st))) body with
    | (.val v, st2) => forLoop f st2 name rest body v
    | (.cont, st2) => forLoop f st2 name rest body last
    | (.brk, st2) => (.val last, st2)
    | other => other

/-- `user_function` (the closure created by `func_def`): check arity, push
a fresh local scope with the parameter bindings, bump `function_depth`,
evaluate the body; a surfacing `FunctionReturn` yields its carried value;
the `finally` pops the scope and restores `function_depth` on every exit
path (normal value, return, break/continue, error, fuel exhaustion). -/
def callFunc : Nat → EvalState → String → List String → Node → List Value → ERes × EvalState
  | 0, st, _, _, _, _ => (.nofuel, st)
  | f + 1, st, fn, ps, body, args =>
    if args.length ≠ ps.length then
      (.err (.typeError (fn ++ "() takes " ++ toString ps.length ++
        " argument(s) but " ++ toString args.length ++ " were given")), st)
    else
      match evalNode f { st with local_scopes := ps.zip args :: st.local_scopes,
                                 function_depth := st.function_depth + 1 } body with
      | (.val v, st2) =>
        (.val v, { st2 with function_depth := st2.function_depth - 1,
                            local_scopes := st2.local_scopes.tail })
      | (.ret v, st2) =>
        (.val v, { st2 with function_depth := st2.function_depth - 1,
                            local_scopes := st2.local_scopes.tail })
      | (other, st2) =>
        (other, { st2 with function_depth := st2.function_depth - 1,
                           local_scopes := st2.local_scopes.tail })
end

/-! ### The module loader (`make_module_loader` / `load_module` in asterisk.py)

Path resolution (`Path(...).resolve()`) is abstracted: `load_module` is
given the canonical path directly, as the claims are all stated over
canonical paths.  The filesystem is a function from canonical path to the
parsed module file; the evaluation of a module file
(`Tree(...).transform(tree)`) is abstracted to: run each `import` the file
performs through the same loader in order (any failure propagates), then
produce the file's top-level bindings — exactly the loader-visible
behaviour of the child evaluator.  Export dictionaries are heap objects
(`RefId` into `LoaderState.heap`): `module_cache[path] = exports; return
exports` stores and returns the SAME object, which the heap captures. -/

/-- A canonical module path. -/
abbrev ModPath := String

/-- A heap reference to a dictionary object (a module export mapping). -/
abbrev RefId := Nat

/-- The loader-visible abstraction of a parsed module file: the imports its
top level performs, in order, and the top-level bindings it produces. -/
structure ModFile where
  imports : List ModPath
  exports : Scope

/-- The state closed over by `make_module_loader` (`module_cache`,
`loading`), together with the heap of dictionary objects. -/
structure LoaderState where
  heap : List (RefId × Scope)
  nextRef : RefId
  module_cache : List (ModPath × RefId)
  loading : List ModPath

/-- The `RuntimeError`s raised by `load_module`, structured: module not
found, circular import, or a child failure re-raised wrapped with the
originating path (the `except Exception` clause). -/
inductive LoadErr where
  | notFound (p : ModPath)
  | circular (p : ModPath)
  | wrapped (p : ModPath) (inner : LoadErr)
deriving DecidableEq

/-- The message text of a loader error, as the f-strings in `load_module`
build it (`colorama` colour codes, which the spec scopes out, omitted;
`pretty_err` on a `RuntimeError` is `str(ex)`, the inner message). -/
def LoadErr.msg : LoadErr → String
  | .notFound p => "Module not found: " ++ p
  | .circular p => "Circular module import: " ++ p
  | .wrapped p inner => "Module error in " ++ p ++ "\n" ++ inner.msg

/-- Observable file-system / evaluation effects of a load, used to state
that a cached load neither re-reads nor re-evaluates the file. -/
inductive LoadEvent where
  | readFile (p : ModPath)
  | evalFile (p : ModPath)
deriving DecidableEq

/-- `loading.discard(path)`. -/
def discard (p : ModPath) (l : List ModPath) : List ModPath :=
  l.filter (fun x => x ≠ p)

mutual
/-- `load_module(module_path, base_dir)` over canonical paths: cache hit
returns the cached object; a path already in `loading` raises the circular
module error; otherwise the path is added to `loading`, the file is read
and evaluated (its imports re-entering this loader), the fresh exports
dict (`dict(module_runtime.env)`) is stored in the cache and returned, and
the `finally` removes the path from `loading` on every exit path.  `none`
is fuel exhaustion (a modelling artifact). -/
def load_module (fs : ModPath → Option ModFile) :
    Nat → ModPath → LoaderState → Option (Except LoadErr RefId × LoaderState × List LoadEvent)
  | 0, _, _ => none
  | f + 1, p, st =>
    match alookup p st.module_cache with
    | some r => some (.ok r, st, [])
    | none =>
      if st.loading.contains p then some (.error (.circular p), st, [])
      else
        let st1 : LoaderState := { st with loading := p :: st.loading }
        match fs p with
        | none =>
          some (.error (.notFound p), { st1 with loading := discard p st1.loading }, [])
        | some mf =>
          match runImports fs f mf.imports st1 with
          | none => none
          | some (.error e, st2, evs) =>
            some (.error (.wrapped p e), { st2 with loading := discard p st2.loading },
              .readFile p :: .evalFile p :: evs)
          | some (.ok _, st2, evs) =>
            let r := st2.nextRef
            some (.ok r,
              { heap := (r, mf.exports) :: st2.heap,
                nextRef := r + 1,
                module_cache := aset p r st2.module_cache,
                loading := discard p st2.loading },
              .readFile p :: .evalFile p :: evs)

/-- The `import` statements a module file performs during its evaluation,
run in order through the same loader: the first failure aborts the
evaluation and propagates (the child evaluator has no `try`). -/
def runImports (fs : ModPath → Option ModFile) :
    Nat → List ModPath → LoaderState → Option (Except LoadErr Unit × LoaderState × List LoadEvent)
  | 0, _, _ => none
  | _ + 1, [], st => some (.ok (), st, [])
  | f + 1, q :: qs, st =>
    match load_module fs f q st with
    | none => none
    | some (.error e, st', evs) => some (.error e, st', evs)
    | some (.ok _, st', evs) =>
      match runImports fs f qs st' with
      | none => none
      | some (res, st'', evs') => some (res, st'', evs ++ evs')
end

/-- A caller mutating a returned module mapping in place (`m[k] = v` on the
dict object the loader returned): a heap write through the reference. -/
def mutateRef (st : LoaderState) (r : RefId) (k : String) (v : Value) : LoaderState :=
  match alookup r st.heap with
  | some sc => { st with heap := aset r (aset k v sc) st.heap }
  | none => st

/-- Read the dictionary object a reference denotes. -/
def derefRef (st : LoaderState) (r : RefId) : Option Scope :=
  alookup r st.heap

/-- Case-insensitive-friendly substring test helpers (for the "contains the
phrase circular" part of the circular-import claim). -/
def listIsPre (a b : List Char) : Bool :=
  match a, b with
  | [], _ => true
  | _, [] => false
  | x :: xs, y :: ys => x == y && listIsPre xs ys

/-- Does `needle` occur as a contiguous segment of the list? -/
def containsSeg (needle : List Char) : List Char → Bool
  | [] => needle.isEmpty
  | c :: rest => listIsPre needle (c :: rest) || containsSeg needle rest

/-- Substring containment on strings. -/
def strContains (s sub : String) : Bool :=
  containsSeg sub.toList s.toList

/-- Lower-case a string character-wise. -/
def lowerStr (s : String) : String :=
  String.mk (s.toList.map Char.toLower)

/-! ### Concrete fixtures used by the theorems -/

/-- A fresh evaluator state: `Tree.__init__`. -/
def st0E : EvalState :=
  { env := [], local_scopes := [], loop_depth := 0, function_depth := 0 }

/-- The spec's scoping test program:
`fn f(x){ x = x + 1; return x } y = 1; f(y)`. -/
def ex5a : Node := .start [
  .func_def ("f") ["x"] (.block [
    .assign_var "x" (.add (.var "x") (.numI 1)),
    .return_stmt (some (.var "x"))]),
  .assign_var "y" (.numI 1),
  .func_call "f" [.var "y"]]

/-- The same function applied to `3`:
`fn f(x){ x = x + 1; return x } f(3)`. -/
def ex5b : Node := .start [
  .func_def ("f") ["x"] (.block [
    .assign_var "x" (.add (.var "x") (.numI 1)),
    .return_stmt (some (.var "x"))]),
  .func_call "f" [.numI 3]]

/-- A `break` in a user-function body that contains no loop, called from
inside a loop of its caller:
`fn f() { break } x = 0; while x < 1 { f(); x = 99 }`. -/
def exC2 : Node := .start [
  .func_def ("f") [] (.block [.break_stmt]),
  .assign_var "x" (.numI 0),
  .while_stmt (.lt (.var "x") (.numI 1)) (.block [
    .func_call "f" [],
    .assign_var "x" (.numI 99)])]

/-- The spec's for-restoration test: `x = 9; for x in [1,2,3] { }`. -/
def ex6a : Node := .start [
  .assign_var "x" (.numI 9),
  .for_stmt "x" (.list_literal [.numI 1, .numI 2, .numI 3]) (.block [])]

/-- The unbound variant: `for x in [1,2,3] { }` with `x` unbound before. -/
def ex6b : Node := .start [
  .for_stmt "x" (.list_literal [.numI 1, .numI 2, .numI 3]) (.block [])]

/-- `xs = [10, 20]; xs[idx]` for a chosen index expression. -/
def ex10 (idx : Node) : Node := .start [
  .assign_var "xs" (.list_literal [.numI 10, .numI 20]),
  .var_index "xs" idx]

/-- A one-module filesystem: `m` has no imports and exports `x = 1`. -/
def fsC1 : ModPath → Option ModFile := fun p =>
  if p = "m" then some { imports := [], exports := [("x", .vint 1)] } else none

/-- A fresh loader (`make_module_loader()`): empty cache, empty loading
set, empty heap. -/
def loader0 : LoaderState :=
  { heap := [], nextRef := 0, module_cache := [], loading := [] }

/-- The loader state after the first successful load of `m` from `fsC1`:
the exports dict is heap object `0`, cached under `m`. -/
def c1st1 : LoaderState :=
  { heap := [(0, [("x", .vint 1)])], nextRef := 1,
    module_cache := [("m", 0)], loading := [] }

/-- A two-file import cycle: `a` imports `b`, `b` imports `a`. -/
def fsCyc : ModPath → Option ModFile := fun p =>
  if p = "a" then some { imports := ["b"], exports := [("x", .vint 1)] }
  else if p = "b" then some { imports := ["a"], exports := [] }
  else none

/-- The error produced by loading `a` under `fsCyc`: the innermost circular
error, wrapped once per module on the way out. -/
def cycErr : LoadErr := .wrapped "a" (.wrapped "b" (.circular "a"))

/-- The observable stack shape of an evaluator state: local-scope stack
depth and `function_depth`. -/
def stackShape (st : EvalState) : Nat × Nat :=
  (st.local_scopes.length, st.function_depth)

/-- A sample evaluator state inside one user-function call (used by
witnesses). -/
def stW : EvalState :=
  { env := [("a", .vint 1)], local_scopes := [[("b", .vint 2)]],
    loop_depth := 0, function_depth := 1 }

/-! ### Helper lemmas on the dictionary model -/

theorem alookup_aset_self {κ α : Type} [DecidableEq κ] (k : κ) (v : α) :
    ∀ l : List (κ × α), alookup k (aset k v l) = some v := by
  intro l
  induction l with
  | nil => simp [alookup, aset]
  | cons hd tl ih =>
    obtain ⟨k', v'⟩ := hd
    by_cases h : k' = k
    · simp [alookup, aset, h]
    · simp [alookup, aset, h, ih]

theorem alookup_aset_ne {κ α : Type} [DecidableEq κ] (k q : κ) (v : α) (hne : q ≠ k) :
    ∀ l : List (κ × α), alookup q (aset k v l) = alookup q l := by
  intro l
  have hkq : ¬k = q := fun h => hne h.symm
  induction l with
  | nil => simp [alookup, aset, hkq]
  | cons hd tl ih =>
    obtain ⟨k', v'⟩ := hd
    by_cases h : k' = k
    · subst h
      simp [alookup, aset, hkq]
    · simp [alookup, aset, h, ih]

theorem alookup_aremove_self {κ α : Type} [DecidableEq κ] (k : κ) :
    ∀ l : List (κ × α), alookup k (aremove k l) = none := by
  intro l
  induction l with
  | nil => simp [alookup, aremove]
  | cons hd tl ih =>
    obtain ⟨k', v'⟩ := hd
    by_cases h : k' = k
    · simp [alookup, aremove, h, ih]
    · simp [alookup, aremove, h, ih]

theorem current_scope_set_current (st : EvalState) (sc : Scope) :
    current_scope (set_current st sc) = sc := by
  cases h : st.local_scopes <;> simp [current_scope, set_current, h]

theorem alookup_restore_binding (st : EvalState) (name : String) (old : Option Value) :
    alookup name (current_scope (restore_binding st name old)) = old := by
  cases old with
  | some v => simp [restore_binding, current_scope_set_current, alookup_aset_self]
  | none => simp [restore_binding, current_scope_set_current, alookup_aremove_self]

/-! ### C1 — mutating a returned module mapping -/

/-- C1: REFUTED (code bug).  The claim says mutating the mapping returned
by `load` cannot change the cached copy.  But `load_module` stores and
returns the very same dictionary object (`module_cache[path] = exports;
return exports`), so a caller's insertion is visible in the cache: after
loading `m` (exports `{x: 1}`, heap object 0) and inserting `y = 2` into
the returned mapping, a second load of `m` returns the same object 0,
which now reads `{x: 1, y: 2}` — not the original exported bindings. -/
theorem cached_module_mapping_mutable_through_returned_alias :
    load_module fsC1 2 "m" loader0
      = some (.ok 0, c1st1, [.readFile "m", .evalFile "m"]) ∧
    derefRef c1st1 0 = some [("x", .vint 1)] ∧
    load_module fsC1 2 "m" (mutateRef c1st1 0 "y" (.vint 2))
      = some (.ok 0, mutateRef c1st1 0 "y" (.vint 2), []) ∧
    derefRef (mutateRef c1st1 0 "y" (.vint 2)) 0
      = some [("x", .vint 1), ("y", .vint 2)] :=
  ⟨rfl, rfl, rfl, rfl⟩

/-! ### C2 — break/continue outside a loop -/

/-- C2: counterexample to the claim as stated.  In
`fn f() { break } x = 0; while x < 1 { f(); x = 99 }` the `break` sits in
a user-function body with no lexically enclosing loop, and `f` is called
from inside the caller's `while` loop.  The claim says this `break` is a
runtime error; the code instead raises `LoopBreak` (the evaluator's
`loop_depth` is dynamic, not lexical — `user_function` does not reset it),
which escapes `f` and terminates the caller's loop: the program finishes
without error, with `x` still `0`. -/
theorem break_in_loopfree_function_called_from_loop_not_error :
    (evalNode 30 st0E exC2).1 = .val .vnone ∧
    alookup "x" (evalNode 30 st0E exC2).2.env = some (.vint 0) :=
  ⟨rfl, rfl⟩

/-- C2 (amended): evaluating `break_stmt`/`continue_stmt` raises the
"used outside of loop" runtime error if and only if the evaluator's
dynamic `loop_depth` is zero — i.e. iff no `while`/`for` loop of this
evaluator is currently executing anywhere in its call stack, not iff the
statement is lexically outside a loop.  In particular a `break` in a
loop-free user-function body called from inside a loop of its caller is
not an error: it raises `LoopBreak`, which exits the caller's loop. -/
theorem break_continue_error_iff_dynamic_loop_depth_zero :
    (∀ f st, evalNode (f + 1) st .break_stmt =
      ((if st.loop_depth = 0 then .err (.runtimeError "break used outside of loop")
        else .brk), st)) ∧
    (∀ f st, evalNode (f + 1) st .continue_stmt =
      ((if st.loop_depth = 0 then .err (.runtimeError "continue used outside of loop")
        else .cont), st)) ∧
    (evalNode 30 st0E exC2).1 = .val .vnone ∧
    alookup "x" (evalNode 30 st0E exC2).2.env = some (.vint 0) := by
  refine ⟨?_, ?_, rfl, rfl⟩ <;>
    · intro f st
      by_cases h : st.loop_depth = 0 <;> simp [evalNode, h]

/-! ### C5 — assignment inside a user function -/

/-- C5: `_set_var` writes to the innermost local scope whenever the local
stack is non-empty (as it is throughout a user-function body) and leaves
the module environment untouched; and the spec's concrete test agrees:
after `fn f(x){ x = x + 1; return x } y = 1; f(y)` the call returns `2`
while the module-level `y` is still `1`, and `f(3)` returns `4`. -/
theorem assignment_in_function_writes_innermost_local :
    (∀ st name v, st.local_scopes ≠ [] → (set_var st name v).env = st.env) ∧
    (∀ st name v sc rest, st.local_scopes = sc :: rest →
      (set_var st name v).local_scopes = aset name v sc :: rest) ∧
    (evalNode 30 st0E ex5a).1 = .val (.vint 2) ∧
    alookup "y" (evalNode 30 st0E ex5a).2.env = some (.vint 1) ∧
    (evalNode 30 st0E ex5b).1 = .val (.vint 4) := by
  refine ⟨?_, ?_, rfl, rfl, rfl⟩
  · intro st name v h
    cases hl : st.local_scopes with
    | nil => exact absurd hl h
    | cons sc rest => simp [set_var, hl]
  · intro st name v sc rest h
    simp [set_var, h]

/-- Witness for C5: both hypothesised parts applied at a concrete state
with one local scope. -/
theorem assignment_in_function_writes_innermost_local_witness :
    (set_var stW "c" .vnone).env = stW.env ∧
    (set_var stW "c" .vnone).local_scopes = aset "c" .vnone [("b", .vint 2)] :: [] :=
  ⟨assignment_in_function_writes_innermost_local.1 stW "c" .vnone (by simp [stW]),
   assignment_in_function_writes_innermost_local.2.1 stW "c" .vnone
     [("b", .vint 2)] [] rfl⟩

/-! ### C6 — for-loop variable restoration -/

/-- C6: after a `for_stmt` finishes — normally, via `break`, `continue`, a
propagating error, or even fuel exhaustion in the body — the binding of
the loop variable in the current scope equals exactly what it was when the
loop saved it (just after the iterable was evaluated): restored if it
existed, absent if it did not, regardless of assignments in the body.  The
spec's concrete tests: `x = 9; for x in [1,2,3] { }` leaves `x == 9`, and
with `x` unbound before the loop it is unbound after. -/
theorem for_loop_variable_restored_after_loop :
    (∀ f st name iterE body itv st1, evalNode f st iterE = (.val itv, st1) →
      alookup name (current_scope (evalNode (f + 1) st (.for_stmt name iterE body)).2)
        = alookup name (current_scope st1)) ∧
    alookup "x" (evalNode 30 st0E ex6a).2.env = some (.vint 9) ∧
    alookup "x" (evalNode 30 st0E ex6b).2.env = none := by
  refine ⟨?_, rfl, rfl⟩
  intro f st name iterE body itv st1 h
  simp only [evalNode, h]
  cases hit : pyIter itv with
  | none => simp
  | some items => simp [alookup_restore_binding]

/-- Witness for C6: the restoration theorem applied to
`for x in [1] { }` from the empty state, hypothesis discharged by
computation. -/
theorem for_loop_variable_restored_after_loop_witness :
    alookup "x" (current_scope
      (evalNode 6 st0E (.for_stmt "x" (.list_literal [.numI 1]) (.block []))).2)
      = alookup "x" (current_scope st0E) :=
  for_loop_variable_restored_after_loop.1 5 st0E "x" (.list_literal [.numI 1])
    (.block []) (.vlist [.vint 1]) st0E rfl

/-! ### C8 — division -/

/-- C8: for numeric operands (values with a numeric reading) the `div`
operation raises `ZeroDivisionError` iff the right operand equals zero,
and otherwise yields the true-division quotient as a float; in particular
`6 / 4` evaluates to the float `1.5`, not an integer, and `1 / 0` is a
`ZeroDivisionError`. -/
theorem division_zero_error_iff_zero_and_true_division :
    (∀ x y qx qy, toNum x = some qx → toNum y = some qy →
      ((divStep x y = .err (.zeroDivisionError "division by zero")) ↔ qy = 0) ∧
      (qy ≠ 0 → divStep x y = .val (.vfloat (qx / qy)))) ∧
    (evalNode 9 st0E (.div (.numI 6) (.numI 4))).1 = .val (.vfloat 1.5) ∧
    (evalNode 9 st0E (.div (.numI 6) (.numI 4))).2 = st0E ∧
    (evalNode 9 st0E (.div (.numI 1) (.numI 0))).1
      = .err (.zeroDivisionError "division by zero") := by
  refine ⟨?_, ?_, rfl, rfl⟩
  · intro x y qx qy hx hy
    by_cases h : qy = 0
    · subst h
      simp [divStep, pyEqZero, hy]
    · constructor
      · simp [divStep, pyEqZero, hx, hy, h]
      · intro _
        simp [divStep, pyEqZero, hx, hy, h]
  · have h : (evalNode 9 st0E (.div (.numI 6) (.numI 4))).1
        = divStep (.vint 6) (.vint 4) := rfl
    rw [h]
    simp only [divStep, pyEqZero, toNum]
    norm_num

/-- Witness for C8: the general part applied at `1 / 0` (error) and at
`6 / 4` (quotient `3/2`), hypotheses discharged by computation. -/
theorem division_zero_error_iff_zero_and_true_division_witness :
    (divStep (.vint 1) (.vint 0) = .err (.zeroDivisionError "division by zero")) ∧
    divStep (.vint 6) (.vint 4) = .val (.vfloat ((6 : ℚ) / 4)) :=
  ⟨((division_zero_error_iff_zero_and_true_division.1
      (.vint 1) (.vint 0) 1 0 rfl rfl).1).mpr rfl,
   (division_zero_error_iff_zero_and_true_division.1
      (.vint 6) (.vint 4) 6 4 (by norm_num [toNum]) (by norm_num [toNum])).2
      (by norm_num)⟩

/-! ### C9 — and/or short-circuit and boolean normalization -/

/-- C9: `and` does not evaluate its right operand when the left is falsy
(the result and final state are those of the left operand alone, with
result `False`); `or` does not evaluate its right operand when the left is
truthy (result `True`); and whenever either operator produces a value it
is a boolean, whatever the operands' value types. -/
theorem and_or_short_circuit_normalize_bool :
    (∀ f st a b l st1, evalNode f st a = (.val l, st1) → truthy l = false →
      evalNode (f + 1) st (.and_op a b) = (.val (.vbool false), st1)) ∧
    (∀ f st a b l st1, evalNode f st a = (.val l, st1) → truthy l = true →
      evalNode (f + 1) st (.or_op a b) = (.val (.vbool true), st1)) ∧
    (∀ f st a b v st', evalNode f st (.and_op a b) = (.val v, st') →
      ∃ c, v = .vbool c) ∧
    (∀ f st a b v st', evalNode f st (.or_op a b) = (.val v, st') →
      ∃ c, v = .vbool c) := by
  refine ⟨?_, ?_, ?_, ?_⟩
  · intro f st a b l st1 h ht
    simp [evalNode, h, ht]
  · intro f st a b l st1 h ht
    simp [evalNode, h, ht]
  · intro f st a b v st' h
    cases f with
    | zero => simp [evalNode] at h
    | succ f =>
      simp only [evalNode] at h
      rcases ha : evalNode f st a with ⟨resa, sta⟩
      rw [ha] at h
      cases resa with
      | val l =>
        dsimp only at h
        cases ht : truthy l with
        | true =>
          rw [ht] at h
          simp only [if_true] at h
          rcases hb : evalNode f sta b with ⟨resb, stb⟩
          rw [hb] at h
          cases resb with
          | val r =>
            dsimp only at h
            simp only [Prod.mk.injEq, ERes.val.injEq] at h
            exact ⟨truthy r, h.1.symm⟩
          | brk => dsimp only at h; simp at h
          | cont => dsimp only at h; simp at h
          | ret w => dsimp only at h; simp at h
          | err e => dsimp only at h; simp at h
          | nofuel => dsimp only at h; simp at h
        | false =>
          rw [ht] at h
          simp only [Bool.false_eq_true, if_false] at h
          simp only [Prod.mk.injEq, ERes.val.injEq] at h
          exact ⟨false, h.1.symm⟩
      | brk => dsimp only at h; simp at h
      | cont => dsimp only at h; simp at h
      | ret w => dsimp only at h; simp at h
      | err e => dsimp only at h; simp at h
      | nofuel => dsimp only at h; simp at h
  · intro f st a b v st' h
    cases f with
    | zero => simp [evalNode] at h
    | succ f =>
      simp only [evalNode] at h
      rcases ha : evalNode f st a with ⟨resa, sta⟩
      rw [ha] at h
      cases resa with
      | val l =>
        dsimp only at h
        cases ht : truthy l with
        | true =>
          rw [ht] at h
          simp only [if_true] at h
          simp only [Prod.mk.injEq, ERes.val.injEq] at h
          exact ⟨true, h.1.symm⟩
        | false =>
          rw [ht] at h
          simp only [Bool.false_eq_true, if_false] at h
          rcases hb : evalNode f sta b with ⟨resb, stb⟩
          rw [hb] at h
          cases resb with
          | val r =>
            dsimp only at h
            simp only [Prod.mk.injEq, ERes.val.injEq] at h
            exact ⟨truthy r, h.1.symm⟩
          | brk => dsimp only at h; simp at h
          | cont => dsimp only at h; simp at h
          | ret w => dsimp only at h; simp at h
          | err e => dsimp only at h; simp at h
          | nofuel => dsimp only at h; simp at h
      | brk => dsimp only at h; simp at h
      | cont => dsimp only at h; simp at h
      | ret w => dsimp only at h; simp at h
      | err e => dsimp only at h; simp at h
      | nofuel => dsimp only at h; simp at h

/-- Witness for C9: with a falsy left operand, `and` returns `False`
without evaluating a right operand that would divide by zero; dually for
`or` with a truthy left operand. -/
theorem and_or_short_circuit_normalize_bool_witness :
    evalNode 9 st0E (.and_op .falseLit (.div (.numI 1) (.numI 0)))
      = (.val (.vbool false), st0E) ∧
    evalNode 9 st0E (.or_op .trueLit (.div (.numI 1) (.numI 0)))
      = (.val (.vbool true), st0E) :=
  ⟨and_or_short_circuit_normalize_bool.1 8 st0E .falseLit
      (.div (.numI 1) (.numI 0)) (.vbool false) st0E rfl rfl,
   and_or_short_circuit_normalize_bool.2.1 8 st0E .trueLit
      (.div (.numI 1) (.numI 0)) (.vbool true) st0E rfl rfl⟩

/-! ### C10 — list indexing accepts booleans and negative indices -/

theorem pyListGet_eq_none_iff (xs : List Value) (n : Int) :
    pyListGet xs n = none ↔ (n < -(xs.length : Int) ∨ (xs.length : Int) ≤ n) := by
  unfold pyListGet
  by_cases hn : n < 0
  · simp only [hn, if_true]
    by_cases hc : (0 ≤ n + (xs.length : Int) ∧ n + (xs.length : Int) < (xs.length : Int))
    · rw [if_pos hc, List.get?_eq_none]
      omega
    · rw [if_neg hc]
      simp only [true_iff]
      omega
  · simp only [hn, if_false]
    by_cases hc : (0 ≤ n ∧ n < (xs.length : Int))
    · rw [if_pos hc, List.get?_eq_none]
      omega
    · rw [if_neg hc]
      simp only [true_iff]
      omega

theorem pyListSet_eq_none_iff (xs : List Value) (n : Int) (v : Value) :
    pyListSet xs n v = none ↔ (n < -(xs.length : Int) ∨ (xs.length : Int) ≤ n) := by
  unfold pyListSet
  by_cases hn : n < 0
  · simp only [hn, if_true]
    by_cases hc : (0 ≤ n + (xs.length : Int) ∧ n + (xs.length : Int) < (xs.length : Int))
    · rw [if_pos hc]
      simp only [reduceCtorEq, false_iff]
      omega
    · rw [if_neg hc]
      simp only [true_iff]
      omega
  · simp only [hn, if_false]
    by_cases hc : (0 ≤ n ∧ n < (xs.length : Int))
    · rw [if_pos hc]
      simp only [reduceCtorEq, false_iff]
      omega
    · rw [if_neg hc]
      simp only [true_iff]
      omega

theorem pyListGet_concat_last (x : Value) (xs : List Value) :
    pyListGet (xs ++ [x]) (-1) = some x := by
  unfold pyListGet
  have hlen : ((xs ++ [x]).length : Int) = (xs.length : Int) + 1 := by
    simp
  rw [if_pos (by omega : (-1 : Int) < 0)]
  rw [if_pos (by constructor <;> omega)]
  have ht : ((-1 : Int) + ((xs ++ [x]).length : Int)).toNat = xs.length := by
    simp
  rw [ht, List.get?_eq_getElem?]
  exact List.getElem?_concat_length xs x

theorem set_concat_length (x v : Value) :
    ∀ xs : List Value, (xs ++ [x]).set xs.length v = xs ++ [v] := by
  intro xs
  induction xs with
  | nil => rfl
  | cons a tl ih => simp [List.set, ih]

theorem pyListSet_concat_last (x v : Value) (xs : List Value) :
    pyListSet (xs ++ [x]) (-1) v = some (xs ++ [v]) := by
  unfold pyListSet
  rw [if_pos (by omega : (-1 : Int) < 0)]
  rw [if_pos (by constructor <;> simp)]
  have ht : ((-1 : Int) + ((xs ++ [x]).length : Int)).toNat = xs.length := by
    simp
  rw [ht, set_concat_length]

/-- C10: the "list index must be int" check on list reads (`var_index`) and
list indexed assignment (`assign_index`) accepts booleans — `isinstance`
respects `bool` subclassing `int`, so `true` indexes position 1 and `false`
position 0, with no `TypeError` — and accepts negative integers, which
index from the end (`-1` is the last element); an `IndexError` arises
exactly for integer indices below `-len` or at/above `len`.  Checked at the
evaluator level: `xs = [10, 20]` gives `xs[true] = 20`, `xs[-1] = 20`, and
`xs[2]` an `IndexError`. -/
theorem list_index_bool_and_negative_semantics :
    (∀ xs : List Value, listReadStep xs (.vbool true) = listReadStep xs (.vint 1) ∧
      listReadStep xs (.vbool false) = listReadStep xs (.vint 0)) ∧
    (∀ (xs : List Value) (v : Value),
      listWriteStep xs (.vbool true) v = listWriteStep xs (.vint 1) v ∧
      listWriteStep xs (.vbool false) v = listWriteStep xs (.vint 0) v) ∧
    (∀ (xs : List Value) (n : Int),
      listReadStep xs (.vint n) = .err (.indexError "list index out of range")
        ↔ (n < -(xs.length : Int) ∨ (xs.length : Int) ≤ n)) ∧
    (∀ (xs : List Value) (n : Int) (v : Value),
      listWriteStep xs (.vint n) v
          = .error (.indexError "list assignment index out of range")
        ↔ (n < -(xs.length : Int) ∨ (xs.length : Int) ≤ n)) ∧
    (∀ (x : Value) (xs : List Value),
      listReadStep (xs ++ [x]) (.vint (-1)) = .val x) ∧
    (∀ (x v : Value) (xs : List Value),
      listWriteStep (xs ++ [x]) (.vint (-1)) v = .ok (xs ++ [v])) ∧
    (evalNode 20 st0E (ex10 .trueLit)).1 = .val (.vint 20) ∧
    (evalNode 20 st0E (ex10 (.numI (-1)))).1 = .val (.vint 20) ∧
    (evalNode 20 st0E (ex10 (.numI 2))).1
      = .err (.indexError "list index out of range") := by
  refine ⟨fun xs => ⟨rfl, rfl⟩, fun xs v => ⟨rfl, rfl⟩, ?_, ?_, ?_, ?_, rfl, rfl, rfl⟩
  · intro xs n
    have hiff := pyListGet_eq_none_iff xs n
    cases hp : pyListGet xs n with
    | none =>
      rw [hp] at hiff
      simp only [listReadStep, toIndexInt, hp]
      simpa using hiff
    | some w =>
      rw [hp] at hiff
      simp only [listReadStep, toIndexInt, hp]
      simp only [reduceCtorEq, false_iff] at hiff ⊢
      simpa using hiff
  · intro xs n v
    have hiff := pyListSet_eq_none_iff xs n v
    cases hp : pyListSet xs n v with
    | none =>
      rw [hp] at hiff
      simp only [listWriteStep, toIndexInt, hp]
      simpa using hiff
    | some ys =>
      rw [hp] at hiff
      simp only [listWriteStep, toIndexInt, hp]
      simp only [reduceCtorEq, false_iff] at hiff ⊢
      simpa using hiff
  · intro x xs
    simp only [listReadStep, toIndexInt, pyListGet_concat_last x xs]
  · intro x v xs
    simp only [listWriteStep, toIndexInt, pyListSet_concat_last x v xs]

/-! ### C3 / C4 — the module loader: caching and circular imports -/

theorem contains_discard (p : ModPath) (l : List ModPath) :
    (discard p l).contains p = false := by
  induction l with
  | nil => rfl
  | cons x tl ih =>
    simp only [discard] at ih ⊢
    rw [List.filter_cons]
    by_cases h : x = p
    · simp [h, ih]
    · have h2 : ¬p = x := fun hh => h hh.symm
      simp [List.contains_cons, h, h2, ih]

theorem load_cached (fs : ModPath → Option ModFile) (f : Nat) (p : ModPath)
    (st : LoaderState) (r : RefId) (h : alookup p st.module_cache = some r) :
    load_module fs (f + 1) p st = some (.ok r, st, []) := by
  simp [load_module, h]



theorem load_success_caches (fs : ModPath → Option ModFile) :
    ∀ (f : Nat) (p : ModPath) (st : LoaderState) (r : RefId) (st' : LoaderState)
      (evs : List LoadEvent),
      load_module fs f p st = some (.ok r, st', evs) →
      alookup p st'.module_cache = some r := by
  intro f p st r st' evs h
  cases f with
  | zero => simp [load_module] at h
  | succ f =>
    simp only [load_module] at h
    cases hc : alookup p st.module_cache with
    | some r0 =>
      rw [hc] at h
      dsimp only at h
      simp only [Option.some.injEq, Prod.mk.injEq, Except.ok.injEq] at h
      obtain ⟨hr, hst, -⟩ := h
      rw [← hst, hc, hr]
    | none =>
      rw [hc] at h
      dsimp only at h
      by_cases hl : st.loading.contains p
      · rw [if_pos hl] at h
        simp at h
      · rw [if_neg hl] at h
        cases hfs : fs p with
        | none =>
          rw [hfs] at h
          dsimp only at h
          simp at h
        | some mf =>
          rw [hfs] at h
          dsimp only at h
          cases hri : runImports fs f mf.imports { st with loading := p :: st.loading } with
          | none => rw [hri] at h; simp at h
          | some out =>
            obtain ⟨res, st2, evs2⟩ := out
            rw [hri] at h
            cases res with
            | error e => dsimp only at h; simp at h
            | ok u =>
              dsimp only at h
              simp only [Option.some.injEq, Prod.mk.injEq, Except.ok.injEq] at h
              obtain ⟨hr, hst, -⟩ := h
              rw [← hst]
              simp only
              rw [← hr]
              exact alookup_aset_self p st2.nextRef st2.module_cache



theorem loader_cache_mono (fs : ModPath → Option ModFile) : ∀ g : Nat,
    (∀ p st out st' evs q r, load_module fs g p st = some (out, st', evs) →
       alookup q st.module_cache = some r → alookup q st'.module_cache = some r) ∧
    (∀ l st out st' evs q r, runImports fs g l st = some (out, st', evs) →
       alookup q st.module_cache = some r → alookup q st'.module_cache = some r) := by
  intro g
  induction g with
  | zero =>
    constructor
    · intro p st out st' evs q r h
      simp [load_module] at h
    · intro l st out st' evs q r h
      simp [runImports] at h
  | succ g ih =>
    obtain ⟨ihL, ihR⟩ := ih
    constructor
    · intro p st out st' evs q r h hq
      simp only [load_module] at h
      cases hc : alookup p st.module_cache with
      | some r0 =>
        rw [hc] at h
        simp only [Option.some.injEq, Prod.mk.injEq] at h
        rw [← h.2.1]
        exact hq
      | none =>
        rw [hc] at h
        dsimp only at h
        by_cases hl : st.loading.contains p
        · rw [if_pos hl] at h
          simp only [Option.some.injEq, Prod.mk.injEq] at h
          rw [← h.2.1]
          exact hq
        · rw [if_neg hl] at h
          cases hfs : fs p with
          | none =>
            rw [hfs] at h
            dsimp only at h
            simp only [Option.some.injEq, Prod.mk.injEq] at h
            rw [← h.2.1]
            exact hq
          | some mf =>
            rw [hfs] at h
            dsimp only at h
            cases hri : runImports fs g mf.imports { st with loading := p :: st.loading } with
            | none => rw [hri] at h; simp at h
            | some out2 =>
              obtain ⟨res, st2, evs2⟩ := out2
              rw [hri] at h
              have hst2 : alookup q st2.module_cache = some r :=
                ihR mf.imports { st with loading := p :: st.loading } res st2 evs2 q r hri hq
              cases res with
              | error e =>
                dsimp only at h
                simp only [Option.some.injEq, Prod.mk.injEq] at h
                rw [← h.2.1]
                exact hst2
              | ok u =>
                dsimp only at h
                simp only [Option.some.injEq, Prod.mk.injEq] at h
                rw [← h.2.1]
                dsimp only
                by_cases hqp : q = p
                · rw [hqp] at hq
                  rw [hq] at hc
                  cases hc
                · rw [alookup_aset_ne p q st2.nextRef hqp st2.module_cache]
                  exact hst2
    · intro l st out st' evs q r h hq
      cases l with
      | nil =>
        simp only [runImports, Option.some.injEq, Prod.mk.injEq] at h
        rw [← h.2.1]
        exact hq
      | cons x xs =>
        simp only [runImports] at h
        cases hld : load_module fs g x st with
        | none => rw [hld] at h; simp at h
        | some out1 =>
          obtain ⟨res1, stA, evsA⟩ := out1
          rw [hld] at h
          cases res1 with
          | error e =>
            dsimp only at h
            simp only [Option.some.injEq, Prod.mk.injEq] at h
            rw [← h.2.1]
            exact ihL x st (.error e) stA evsA q r hld hq
          | ok u =>
            dsimp only at h
            have hA : alookup q stA.module_cache = some r :=
              ihL x st (.ok u) stA evsA q r hld hq
            cases hrn : runImports fs g xs stA with
            | none => rw [hrn] at h; simp at h
            | some out2 =>
              obtain ⟨res2, stB, evsB⟩ := out2
              rw [hrn] at h
              dsimp only at h
              simp only [Option.some.injEq, Prod.mk.injEq] at h
              rw [← h.2.1]
              exact ihR xs stA res2 stB evsB q r hrn hA



theorem listIsPre_append : ∀ l rest : List Char, listIsPre l (l ++ rest) = true := by
  intro l rest
  induction l with
  | nil =>
    rw [List.nil_append]
    cases rest <;> simp [listIsPre]
  | cons x xs ih =>
    rw [List.cons_append]
    simp [listIsPre, ih]

theorem containsSeg_append_left :
    ∀ needle rest : List Char, containsSeg needle (needle ++ rest) = true := by
  intro needle rest
  cases needle with
  | nil =>
    rw [List.nil_append]
    cases rest with
    | nil => simp [containsSeg]
    | cons y ys => simp [containsSeg, listIsPre]
  | cons x xs =>
    have hp := listIsPre_append (x :: xs) rest
    rw [List.cons_append] at hp
    rw [List.cons_append]
    simp only [containsSeg, hp, Bool.true_or]

theorem containsSeg_append_right :
    ∀ pre needle : List Char, containsSeg needle (pre ++ needle) = true := by
  intro pre needle
  induction pre with
  | nil =>
    have h : ([] : List Char) ++ needle = needle ++ [] := by simp
    rw [List.nil_append]
    have := containsSeg_append_left needle []
    simpa using this
  | cons x xs ih =>
    cases needle with
    | nil => simp [containsSeg, List.append_nil] at ih ⊢; simp [ih]
    | cons n0 ntl => simp [containsSeg, ih]

theorem load_removes_loading (fs : ModPath → Option ModFile) :
    ∀ (f : Nat) (p : ModPath) (st : LoaderState) (res : Except LoadErr RefId)
      (st' : LoaderState) (evs : List LoadEvent),
      st.loading.contains p = false →
      load_module fs f p st = some (res, st', evs) →
      st'.loading.contains p = false := by
  intro f p st res st' evs hnl h
  cases f with
  | zero => simp [load_module] at h
  | succ f =>
    simp only [load_module] at h
    cases hc : alookup p st.module_cache with
    | some r0 =>
      rw [hc] at h
      simp only [Option.some.injEq, Prod.mk.injEq] at h
      rw [← h.2.1]
      exact hnl
    | none =>
      rw [hc] at h
      dsimp only at h
      rw [hnl] at h
      simp only [Bool.false_eq_true, if_false] at h
      cases hfs : fs p with
      | none =>
        rw [hfs] at h
        dsimp only at h
        simp only [Option.some.injEq, Prod.mk.injEq] at h
        rw [← h.2.1]
        exact contains_discard p _
      | some mf =>
        rw [hfs] at h
        dsimp only at h
        cases hri : runImports fs f mf.imports { st with loading := p :: st.loading } with
        | none => rw [hri] at h; simp at h
        | some out2 =>
          obtain ⟨res2, st2, evs2⟩ := out2
          rw [hri] at h
          cases res2 with
          | error e =>
            dsimp only at h
            simp only [Option.some.injEq, Prod.mk.injEq] at h
            rw [← h.2.1]
            exact contains_discard p _
          | ok u =>
            dsimp only at h
            simp only [Option.some.injEq, Prod.mk.injEq] at h
            rw [← h.2.1]
            exact contains_discard p _



theorem strContains_circular_msg (p : ModPath) :
    strContains (lowerStr (LoadErr.msg (.circular p))) "circular" = true := by
  have h1 : (lowerStr (LoadErr.msg (.circular p))).toList
      = "circular".toList ++ (" module import: ".toList ++ p.toList.map Char.toLower) := by
    show ((("Circular module import: " ++ p).toList).map Char.toLower) = _
    have h2 : ("Circular module import: " ++ p).toList
        = "Circular module import: ".toList ++ p.toList := by
      show ("Circular module import: " ++ p).data = _
      rw [String.data_append]
      rfl
    rw [h2, List.map_append]
    have h3 : ("Circular module import: ".toList).map Char.toLower
        = "circular".toList ++ " module import: ".toList := by decide
    rw [h3, List.append_assoc]
  unfold strContains
  rw [h1]
  exact containsSeg_append_left _ _

theorem strContains_circular_path (p : ModPath) :
    strContains (LoadErr.msg (.circular p)) p = true := by
  have h1 : (LoadErr.msg (.circular p)).toList
      = "Circular module import: ".toList ++ p.toList := by
    show ("Circular module import: " ++ p).data = _
    rw [String.data_append]
    rfl
  unfold strContains
  rw [h1]
  exact containsSeg_append_right _ _



/-- C3: a module file is parsed and evaluated at most once per loader: a
load of a cached canonical path returns the cached mapping immediately,
with no file read, no evaluation, and no state change (first conjunct);
every successful load leaves the path in the cache mapped to the returned
object (second conjunct); and no later load — of any path — ever removes
or changes an existing cache entry (third conjunct).  Together: after the
first successful load, every later load of the same canonical path returns
the cached mapping without re-reading or re-evaluating the file. -/
theorem module_file_evaluated_once_then_cached :
    (∀ (fs : ModPath → Option ModFile) (f : Nat) (p : ModPath) (st : LoaderState) (r : RefId),
      alookup p st.module_cache = some r →
      load_module fs (f + 1) p st = some (.ok r, st, [])) ∧
    (∀ (fs : ModPath → Option ModFile) (f : Nat) (p : ModPath) (st : LoaderState) (r : RefId)
      (st' : LoaderState) (evs : List LoadEvent),
      load_module fs f p st = some (.ok r, st', evs) →
      alookup p st'.module_cache = some r) ∧
    (∀ (fs : ModPath → Option ModFile) (g : Nat) (p : ModPath) (st : LoaderState)
      (out : Except LoadErr RefId) (st' : LoaderState) (evs : List LoadEvent)
      (q : ModPath) (r : RefId),
      load_module fs g p st = some (out, st', evs) →
      alookup q st.module_cache = some r → alookup q st'.module_cache = some r) := by
  refine ⟨?_, ?_, ?_⟩
  · intro fs f p st r h
    exact load_cached fs f p st r h
  · intro fs f p st r st' evs h
    exact load_success_caches fs f p st r st' evs h
  · intro fs g p st out st' evs q r h hq
    exact (loader_cache_mono fs g).1 p st out st' evs q r h hq

/-- Witness for C3: the three parts exercised on the one-module filesystem
`fsC1`, hypotheses discharged by computation. -/
theorem module_file_evaluated_once_then_cached_witness :
    load_module fsC1 2 "m" c1st1 = some (.ok 0, c1st1, []) ∧
    alookup "m" c1st1.module_cache = some 0 ∧
    alookup "m" c1st1.module_cache = some 0 :=
  ⟨module_file_evaluated_once_then_cached.1 fsC1 1 "m" c1st1 0 rfl,
   module_file_evaluated_once_then_cached.2.1 fsC1 2 "m" loader0 0 c1st1
     [.readFile "m", .evalFile "m"] rfl,
   module_file_evaluated_once_then_cached.2.2 fsC1 2 "m" c1st1 (.ok 0) c1st1 []
     "m" 0 (module_file_evaluated_once_then_cached.1 fsC1 1 "m" c1st1 0 rfl) rfl⟩

/-- C4: asking the loader for a canonical path currently in the loading
set fails immediately with the circular-import error naming that path and
changing nothing (first conjunct); the error message contains the phrase
"circular" (case-insensitively; the source capitalises it) and the path
(second/third conjuncts); on every exit path of a load that was not
already loading its path, the path ends up out of the loading set (fourth
conjunct); and on the concrete two-file cycle `a ⇄ b`, loading `a` fails
with the doubly wrapped circular error whose message contains "circular"
and both paths, neither file is cached, and the loading set is empty —
indeed the loader state is exactly the fresh `loader0` again. -/
theorem circular_import_error_and_loading_restored :
    (∀ (fs : ModPath → Option ModFile) (f : Nat) (p : ModPath) (st : LoaderState),
      alookup p st.module_cache = none → st.loading.contains p = true →
      load_module fs (f + 1) p st = some (.error (.circular p), st, [])) ∧
    (∀ p : ModPath, strContains (lowerStr (LoadErr.msg (.circular p))) "circular" = true) ∧
    (∀ p : ModPath, strContains (LoadErr.msg (.circular p)) p = true) ∧
    (∀ (fs : ModPath → Option ModFile) (f : Nat) (p : ModPath) (st : LoaderState)
      (res : Except LoadErr RefId) (st' : LoaderState) (evs : List LoadEvent),
      st.loading.contains p = false →
      load_module fs f p st = some (res, st', evs) →
      st'.loading.contains p = false) ∧
    load_module fsCyc 5 "a" loader0
      = some (.error cycErr, loader0,
          [.readFile "a", .evalFile "a", .readFile "b", .evalFile "b"]) ∧
    strContains (lowerStr cycErr.msg) "circular" = true ∧
    strContains cycErr.msg "a" = true ∧
    strContains cycErr.msg "b" = true ∧
    alookup "a" loader0.module_cache = none ∧
    alookup "b" loader0.module_cache = none ∧
    loader0.loading = [] := by
  refine ⟨?_, strContains_circular_msg, strContains_circular_path, ?_,
    rfl, by decide, by decide, by decide, rfl, rfl, rfl⟩
  · intro fs f p st hc hl
    simp only [load_module]
    rw [hc]
    dsimp only
    rw [hl]
    simp
  · intro fs f p st res st' evs hnl h
    exact load_removes_loading fs f p st res st' evs hnl h

/-! ### C7 — local scope popped on all exit paths -/


theorem stackShape_set_var (st : EvalState) (n : String) (v : Value) :
    stackShape (set_var st n v) = stackShape st := by
  cases h : st.local_scopes <;> simp [set_var, stackShape, h]

theorem stackShape_set_current (st : EvalState) (sc : Scope) :
    stackShape (set_current st sc) = stackShape st := by
  cases h : st.local_scopes <;> simp [set_current, stackShape, h]

theorem stackShape_restore_binding (st : EvalState) (n : String) (old : Option Value) :
    stackShape (restore_binding st n old) = stackShape st := by
  cases old <;> simp [restore_binding, stackShape_set_current]

theorem setInLocals_length (n : String) (v : Value) :
    ∀ ls ls' : List Scope, setInLocals n v ls = some ls' → ls'.length = ls.length := by
  intro ls
  induction ls with
  | nil =>
    intro ls' h
    simp [setInLocals] at h
  | cons sc rest ih =>
    intro ls' h
    simp only [setInLocals] at h
    by_cases hs : (alookup n sc).isSome
    · rw [if_pos hs] at h
      simp only [Option.some.injEq] at h
      rw [← h]
      simp
    · rw [if_neg hs] at h
      cases hr : setInLocals n v rest with
      | none => rw [hr] at h; simp at h
      | some rest' =>
        rw [hr] at h
        simp only [Option.some.injEq] at h
        rw [← h]
        simp [ih rest' hr]

theorem stackShape_set_user_var (st : EvalState) (n : String) (v : Value)
    (st' : EvalState) (h : set_user_var st n v = some st') :
    stackShape st' = stackShape st := by
  unfold set_user_var at h
  cases hs : setInLocals n v st.local_scopes with
  | some ls =>
    rw [hs] at h
    simp only [Option.some.injEq] at h
    rw [← h]
    simp [stackShape, setInLocals_length n v st.local_scopes ls hs]
  | none =>
    rw [hs] at h
    by_cases he : (alookup n st.env).isSome
    · rw [if_pos he] at h
      simp only [Option.some.injEq] at h
      rw [← h]
      simp [stackShape]
    · rw [if_neg he] at h
      simp at h



theorem evalShape : ∀ f : Nat,
    (∀ st nd, stackShape (evalNode f st nd).2 = stackShape st) ∧
    (∀ st l last, stackShape (evalSeq f st l last).2 = stackShape st) ∧
    (∀ st l, stackShape (evalArgs f st l).2 = stackShape st) ∧
    (∀ st c b last, stackShape (whileLoop f st c b last).2 = stackShape st) ∧
    (∀ st n items b last, stackShape (forLoop f st n items b last).2 = stackShape st) ∧
    (∀ st fn ps body args, stackShape (callFunc f st fn ps body args).2 = stackShape st) := by
  intro f
  induction f with
  | zero =>
    refine ⟨fun _ _ => rfl, fun _ _ _ => rfl, fun _ _ => rfl, fun _ _ _ _ => rfl,
      fun _ _ _ _ _ => rfl, fun _ _ _ _ _ => rfl⟩
  | succ f ih =>
    obtain ⟨ihN, ihS, ihA, ihW, ihF, ihC⟩ := ih
    refine ⟨?_, ?_, ?_, ?_, ?_, ?_⟩
    · intro st nd
      cases nd with
      | start stmts => exact ihS st stmts .vnone
      | block stmts => exact ihS st stmts .vnone
      | numI n => rfl
      | numF q => rfl
      | strLit s => rfl
      | trueLit => rfl
      | falseLit => rfl
      | var name =>
        simp only [evalNode]
        cases lookup_var st name <;> rfl
      | assign_var name e =>
        simp only [evalNode]
        rcases he : evalNode f st e with ⟨res, st1⟩
        have g1 : stackShape st1 = stackShape st := by
          have t := ihN st e
          rw [he] at t
          exact t
        cases res with
        | val v => exact (stackShape_set_var st1 name v).trans g1
        | brk => exact g1
        | cont => exact g1
        | ret w => exact g1
        | err e2 => exact g1
        | nofuel => exact g1
      | assign_index name idxE e =>
        simp only [evalNode]
        rcases h1 : evalNode f st idxE with ⟨res1, st1⟩
        have g1 : stackShape st1 = stackShape st := by
          have t := ihN st idxE
          rw [h1] at t
          exact t
        cases res1 with
        | val idx =>
          dsimp only
          rcases h2 : evalNode f st1 e with ⟨res2, st2⟩
          have g2 : stackShape st2 = stackShape st1 := by
            have t := ihN st1 e
            rw [h2] at t
            exact t
          cases res2 with
          | val v =>
            dsimp only
            cases hl : lookup_user_var st2 name with
            | none => exact g2.trans g1
            | some tv =>
              cases tv with
              | vlist xs =>
                dsimp only
                cases hw : listWriteStep xs idx v with
                | error e2 => exact g2.trans g1
                | ok xs2 =>
                  dsimp only
                  cases hsu : set_user_var st2 name (.vlist xs2) with
                  | some st3 =>
                    exact (stackShape_set_user_var st2 name _ st3 hsu).trans (g2.trans g1)
                  | none => exact g2.trans g1
              | vdict items =>
                dsimp only
                cases hh : hashable idx with
                | true =>
                  cases hsu : set_user_var st2 name (.vdict (dset idx v items)) with
                  | some st3 =>
                    exact (stackShape_set_user_var st2 name _ st3 hsu).trans (g2.trans g1)
                  | none => exact g2.trans g1
                | false => exact g2.trans g1
              | vnone => exact g2.trans g1
              | vint n2 => exact g2.trans g1
              | vfloat q2 => exact g2.trans g1
              | vbool b2 => exact g2.trans g1
              | vstr s2 => exact g2.trans g1
              | vtuple xs2 => exact g2.trans g1
              | vclosure fn2 ps2 body2 => exact g2.trans g1
              | vhost h2 => exact g2.trans g1
          | brk => exact g2.trans g1
          | cont => exact g2.trans g1
          | ret w => exact g2.trans g1
          | err e2 => exact g2.trans g1
          | nofuel => exact g2.trans g1
        | brk => exact g1
        | cont => exact g1
        | ret w => exact g1
        | err e2 => exact g1
        | nofuel => exact g1
      | func_def name params body =>
        exact stackShape_set_var st name (.vclosure name params body)
      | while_stmt cond body =>
        simp only [evalNode]
        rcases hw : whileLoop f { st with loop_depth := st.loop_depth + 1 } cond body .vnone
          with ⟨res, st2⟩
        have g1 : stackShape st2 = stackShape st := by
          have t := ihW { st with loop_depth := st.loop_depth + 1 } cond body .vnone
          rw [hw] at t
          exact t
        exact g1
      | for_stmt name iterE body =>
        simp only [evalNode]
        rcases hie : evalNode f st iterE with ⟨resi, st1⟩
        have g1 : stackShape st1 = stackShape st := by
          have t := ihN st iterE
          rw [hie] at t
          exact t
        cases resi with
        | val itv =>
          dsimp only
          cases hpy : pyIter itv with
          | none => exact g1
          | some items =>
            dsimp only
            rcases hf : forLoop f { st1 with loop_depth := st1.loop_depth + 1 }
                name items body .vnone with ⟨res3, st3⟩
            have g2 : stackShape st3 = stackShape st1 := by
              have t := ihF { st1 with loop_depth := st1.loop_depth + 1 }
                name items body .vnone
              rw [hf] at t
              exact t
            exact (stackShape_restore_binding
              { st3 with loop_depth := st3.loop_depth - 1 } name
              (alookup name (current_scope st1))).trans (g2.trans g1)
        | brk => exact g1
        | cont => exact g1
        | ret w => exact g1
        | err e2 => exact g1
        | nofuel => exact g1
      | break_stmt =>
        simp only [evalNode]
        split <;> rfl
      | continue_stmt =>
        simp only [evalNode]
        split <;> rfl
      | return_stmt e =>
        simp only [evalNode]
        split
        · rfl
        · cases e with
          | none => rfl
          | some ex =>
            dsimp only
            rcases he : evalNode f st ex with ⟨res, st1⟩
            have g1 : stackShape st1 = stackShape st := by
              have t := ihN st ex
              rw [he] at t
              exact t
            cases res <;> exact g1
      | add a b =>
        simp only [evalNode]
        rcases ha : evalNode f st a with ⟨res1, st1⟩
        have g1 : stackShape st1 = stackShape st := by
          have t := ihN st a
          rw [ha] at t
          exact t
        cases res1 with
        | val x =>
          dsimp only
          rcases hb : evalNode f st1 b with ⟨res2, st2⟩
          have g2 : stackShape st2 = stackShape st1 := by
            have t := ihN st1 b
            rw [hb] at t
            exact t
          cases res2 <;> exact g2.trans g1
        | brk => exact g1
        | cont => exact g1
        | ret w => exact g1
        | err e2 => exact g1
        | nofuel => exact g1
      | lt a b =>
        simp only [evalNode]
        rcases ha : evalNode f st a with ⟨res1, st1⟩
        have g1 : stackShape st1 = stackShape st := by
          have t := ihN st a
          rw [ha] at t
          exact t
        cases res1 with
        | val x =>
          dsimp only
          rcases hb : evalNode f st1 b with ⟨res2, st2⟩
          have g2 : stackShape st2 = stackShape st1 := by
            have t := ihN st1 b
            rw [hb] at t
            exact t
          cases res2 <;> exact g2.trans g1
        | brk => exact g1
        | cont => exact g1
        | ret w => exact g1
        | err e2 => exact g1
        | nofuel => exact g1
      | div a b =>
        simp only [evalNode]
        rcases ha : evalNode f st a with ⟨res1, st1⟩
        have g1 : stackShape st1 = stackShape st := by
          have t := ihN st a
          rw [ha] at t
          exact t
        cases res1 with
        | val x =>
          dsimp only
          rcases hb : evalNode f st1 b with ⟨res2, st2⟩
          have g2 : stackShape st2 = stackShape st1 := by
            have t := ihN st1 b
            rw [hb] at t
            exact t
          cases res2 <;> exact g2.trans g1
        | brk => exact g1
        | cont => exact g1
        | ret w => exact g1
        | err e2 => exact g1
        | nofuel => exact g1
      | and_op a b =>
        simp only [evalNode]
        rcases ha : evalNode f st a with ⟨res1, st1⟩
        have g1 : stackShape st1 = stackShape st := by
          have t := ihN st a
          rw [ha] at t
          exact t
        cases res1 with
        | val l =>
          dsimp only
          cases ht : truthy l with
          | true =>
            rcases hb : evalNode f st1 b with ⟨res2, st2⟩
            have g2 : stackShape st2 = stackShape st1 := by
              have t := ihN st1 b
              rw [hb] at t
              exact t
            cases res2 <;> exact g2.trans g1
          | false => exact g1
        | brk => exact g1
        | cont => exact g1
        | ret w => exact g1
        | err e2 => exact g1
        | nofuel => exact g1
      | or_op a b =>
        simp only [evalNode]
        rcases ha : evalNode f st a with ⟨res1, st1⟩
        have g1 : stackShape st1 = stackShape st := by
          have t := ihN st a
          rw [ha] at t
          exact t
        cases res1 with
        | val l =>
          dsimp only
          cases ht : truthy l with
          | true => exact g1
          | false =>
            rcases hb : evalNode f st1 b with ⟨res2, st2⟩
            have g2 : stackShape st2 = stackShape st1 := by
              have t := ihN st1 b
              rw [hb] at t
              exact t
            cases res2 <;> exact g2.trans g1
        | brk => exact g1
        | cont => exact g1
        | ret w => exact g1
        | err e2 => exact g1
        | nofuel => exact g1
      | var_index name idxE =>
        simp only [evalNode]
        rcases h1 : evalNode f st idxE with ⟨res1, st1⟩
        have g1 : stackShape st1 = stackShape st := by
          have t := ihN st idxE
          rw [h1] at t
          exact t
        cases res1 with
        | val idx =>
          dsimp only
          cases hl : lookup_user_var st1 name with
          | none => exact g1
          | some tv =>
            cases tv with
            | vlist xs => exact g1
            | vtuple xs => exact g1
            | vdict items =>
              dsimp only
              cases hh : hashable idx with
              | true => cases hd : dlookup idx items <;> exact g1
              | false => exact g1
            | vnone => exact g1
            | vint n2 => exact g1
            | vfloat q2 => exact g1
            | vbool b2 => exact g1
            | vstr s2 => exact g1
            | vclosure fn2 ps2 body2 => exact g1
            | vhost h2 => exact g1
        | brk => exact g1
        | cont => exact g1
        | ret w => exact g1
        | err e2 => exact g1
        | nofuel => exact g1
      | list_literal elems =>
        simp only [evalNode]
        rcases ha : evalArgs f st elems with ⟨res, st1⟩
        have g1 : stackShape st1 = stackShape st := by
          have t := ihA st elems
          rw [ha] at t
          exact t
        cases res <;> exact g1
      | func_call fname argNodes =>
        simp only [evalNode]
        rcases ha : evalArgs f st argNodes with ⟨res, st1⟩
        have g1 : stackShape st1 = stackShape st := by
          have t := ihA st argNodes
          rw [ha] at t
          exact t
        cases res with
        | error other => exact g1
        | ok args =>
          dsimp only
          cases hl : lookup_var st1 fname with
          | none => exact g1
          | some fv =>
            cases fv with
            | vclosure fn ps body => exact (ihC st1 fn ps body args).trans g1
            | vhost h2 => exact g1
            | vnone => exact g1
            | vint n2 => exact g1
            | vfloat q2 => exact g1
            | vbool b2 => exact g1
            | vstr s2 => exact g1
            | vlist xs => exact g1
            | vtuple xs => exact g1
            | vdict items => exact g1
    · intro st l last
      cases l with
      | nil => rfl
      | cons nd rest =>
        simp only [evalSeq]
        rcases he : evalNode f st nd with ⟨res, st1⟩
        have g1 : stackShape st1 = stackShape st := by
          have t := ihN st nd
          rw [he] at t
          exact t
        cases res with
        | val v => exact (ihS st1 rest v).trans g1
        | brk => exact g1
        | cont => exact g1
        | ret w => exact g1
        | err e2 => exact g1
        | nofuel => exact g1
    · intro st l
      cases l with
      | nil => rfl
      | cons nd rest =>
        simp only [evalArgs]
        rcases he : evalNode f st nd with ⟨res, st1⟩
        have g1 : stackShape st1 = stackShape st := by
          have t := ihN st nd
          rw [he] at t
          exact t
        cases res with
        | val v =>
          dsimp only
          rcases hr : evalArgs f st1 rest with ⟨res2, st2⟩
          have g2 : stackShape st2 = stackShape st1 := by
            have t := ihA st1 rest
            rw [hr] at t
            exact t
          cases res2 <;> exact g2.trans g1
        | brk => exact g1
        | cont => exact g1
        | ret w => exact g1
        | err e2 => exact g1
        | nofuel => exact g1
    · intro st c b last
      simp only [whileLoop]
      rcases hc : evalNode f st c with ⟨res, st1⟩
      have g1 : stackShape st1 = stackShape st := by
        have t := ihN st c
        rw [hc] at t
        exact t
      cases res with
      | val cv =>
        dsimp only
        cases ht : truthy cv with
        | true =>
          rcases hb : evalNode f st1 b with ⟨res2, st2⟩
          have g2 : stackShape st2 = stackShape st1 := by
            have t := ihN st1 b
            rw [hb] at t
            exact t
          cases res2 with
          | val v => exact (ihW st2 c b v).trans (g2.trans g1)
          | cont => exact (ihW st2 c b last).trans (g2.trans g1)
          | brk => exact g2.trans g1
          | ret w => exact g2.trans g1
          | err e2 => exact g2.trans g1
          | nofuel => exact g2.trans g1
        | false => exact g1
      | brk => exact g1
      | cont => exact g1
      | ret w => exact g1
      | err e2 => exact g1
      | nofuel => exact g1
    · intro st n items b last
      cases items with
      | nil => rfl
      | cons item rest =>
        simp only [forLoop]
        rcases hb : evalNode f (set_current st (aset n item (current_scope st))) b
          with ⟨res, st2⟩
        have g2 : stackShape st2 = stackShape st := by
          have t := ihN (set_current st (aset n item (current_scope st))) b
          rw [hb] at t
          exact t.trans (stackShape_set_current st _)
        cases res with
        | val v => exact (ihF st2 n rest b v).trans g2
        | cont => exact (ihF st2 n rest b last).trans g2
        | brk => exact g2
        | ret w => exact g2
        | err e2 => exact g2
        | nofuel => exact g2
    · intro st fn ps body args
      simp only [callFunc]
      split
      · rfl
      · rcases hr : evalNode f
            { st with local_scopes := ps.zip args :: st.local_scopes,
                      function_depth := st.function_depth + 1 } body with ⟨res, st2⟩
        have g1 : stackShape st2 = stackShape
            { st with local_scopes := ps.zip args :: st.local_scopes,
                      function_depth := st.function_depth + 1 } := by
          have t := ihN { st with local_scopes := ps.zip args :: st.local_scopes,
                                  function_depth := st.function_depth + 1 } body
          rw [hr] at t
          exact t
        have hL : st2.local_scopes.length = st.local_scopes.length + 1 := by
          have t := congrArg Prod.fst g1
          simpa [stackShape] using t
        have hF : st2.function_depth = st.function_depth + 1 := by
          have t := congrArg Prod.snd g1
          simpa [stackShape] using t
        cases res <;> simp [stackShape, List.length_tail, hL, hF]



/-- C7: the local scope pushed by `user_function` is popped on every exit
path — normal completion, a surfacing `FunctionReturn`, a propagating
`LoopBreak`/`LoopContinue`, any error, even fuel exhaustion — and
`function_depth` is restored, so a whole call leaves the local-scope stack
depth and `function_depth` unchanged (first conjunct); more generally every
evaluation step preserves both (second conjunct); hence the invariant
"local-scope stack depth = current user-function call depth" is preserved
by evaluation (third conjunct). -/
theorem user_function_scope_popped_on_all_paths :
    (∀ f st fn ps body args,
      (callFunc f st fn ps body args).2.local_scopes.length = st.local_scopes.length ∧
      (callFunc f st fn ps body args).2.function_depth = st.function_depth) ∧
    (∀ f st nd,
      (evalNode f st nd).2.local_scopes.length = st.local_scopes.length ∧
      (evalNode f st nd).2.function_depth = st.function_depth) ∧
    (∀ f st nd, st.local_scopes.length = st.function_depth →
      (evalNode f st nd).2.local_scopes.length = (evalNode f st nd).2.function_depth) := by
  refine ⟨?_, ?_, ?_⟩
  · intro f st fn ps body args
    have h := (evalShape f).2.2.2.2.2 st fn ps body args
    exact ⟨congrArg Prod.fst h, congrArg Prod.snd h⟩
  · intro f st nd
    have h := (evalShape f).1 st nd
    exact ⟨congrArg Prod.fst h, congrArg Prod.snd h⟩
  · intro f st nd hinv
    have h := (evalShape f).1 st nd
    have h1 : (evalNode f st nd).2.local_scopes.length = st.local_scopes.length :=
      congrArg Prod.fst h
    have h2 : (evalNode f st nd).2.function_depth = st.function_depth :=
      congrArg Prod.snd h
    rw [h1, h2, hinv]

/-- Witness for C7: the hypothesised invariant part applied to the scoping
test program from the empty state, hypothesis discharged by computation. -/
theorem user_function_scope_popped_on_all_paths_witness :
    (evalNode 30 st0E ex5a).2.local_scopes.length
      = (evalNode 30 st0E ex5a).2.function_depth :=
  user_function_scope_popped_on_all_paths.2.2 30 st0E ex5a rfl


/-- Witness for C4: the hypothesised parts applied at concrete loader
states, hypotheses discharged by computation. -/
theorem circular_import_error_and_loading_restored_witness :
    load_module fsCyc 1 "a" { loader0 with loading := ["a"] }
      = some (.error (.circular "a"), { loader0 with loading := ["a"] }, []) ∧
    ({ loader0 with loading := ["z"] } : LoaderState).loading.contains "a" = false ∧
    strContains (lowerStr (LoadErr.msg (.circular "util.sk"))) "circular" = true :=
  ⟨circular_import_error_and_loading_restored.1 fsCyc 0 "a"
      { loader0 with loading := ["a"] } rfl rfl,
   circular_import_error_and_loading_restored.2.2.2.1 fsCyc 5 "a"
      { loader0 with loading := ["z"] } (.error cycErr) { loader0 with loading := ["z"] }
      [.readFile "a", .evalFile "a", .readFile "b", .evalFile "b"] rfl rfl,
   circular_import_error_and_loading_restored.2.1 "util.sk"⟩


end Asterisk
